import Mathlib

/-!
Verification development for the lflag configuration library.

The definitions below are a shallow embedding of the Go sources:
`Param`/`Source`/`SourceStub`/`Sources` (source.go), the type parsers
(types.go), `parseCLI`/`cliHelpStr` (cli.go), `parseEnv` (env.go),
`sourceJSON.Parse` (json.go), and the registry/scheduler core
(`newParam`, `Do`, `spin`, `Parse`, `Reset` in lflag.go).

Go maps (`map[string]string`, `map[string]Param`, ...) are modelled as
association lists with unique keys maintained by `gInsert`; `gLookup`
is map indexing, `gMerge` is the `for k, v := range sm { vals[k] = v }`
merge loop.  Map iteration order is unspecified in Go, and no theorem
below depends on the representation order of an association list.
-/

/-- Model of a Go `map[string]β`: an association list whose content is
read through `gLookup`. -/
def gLookup {β : Type} : List (String × β) → String → Option β
  | [], _ => none
  | kv :: rest, k => if kv.1 = k then some kv.2 else gLookup rest k

/-- Go map assignment `m[k] = v`: overwrites the binding of `k` if present,
otherwise adds it. -/
def gInsert {β : Type} : List (String × β) → String → β → List (String × β)
  | [], k, v => [(k, v)]
  | kv :: rest, k, v => if kv.1 = k then gInsert rest k v else kv :: gInsert rest k v

/-- The Go merge loop `for k, v := range sm { base[k] = v }`. -/
def gMerge {β : Type} (base sm : List (String × β)) : List (String × β) :=
  sm.foldl (fun acc kv => gInsert acc kv.1 kv.2) base

/-- Model of a Go `map[string]string` (a provider result). -/
abbrev GoMap := List (String × String)

/-- Characters before and after the first occurrence of `c`, or `none`
if `c` does not occur. -/
def breakAtChar (c : Char) : List Char → Option (List Char × List Char)
  | [] => none
  | x :: rest =>
    if x = c then some ([], rest)
    else (breakAtChar c rest).map (fun pr => (x :: pr.1, pr.2))

/-- Model of Go `strings.SplitN(s, sep, 2)` for a one-character separator
(both call sites split on `"="`): split around the first occurrence only. -/
def splitN2 (s : String) (c : Char) : List String :=
  match breakAtChar c s.data with
  | none => [s]
  | some pr => [String.mk pr.1, String.mk pr.2]

/-- Model of Go `strings.ToUpper` (ASCII parameter names). -/
def goToUpper (s : String) : String :=
  String.mk (s.data.map Char.toUpper)

/-- Model of Go `strings.ToLower` (ASCII parameter names). -/
def goToLower (s : String) : String :=
  String.mk (s.data.map Char.toLower)

/-- Model of Go `strings.Replace(s, "-", "_", -1)`: replace every
occurrence of one character by another. -/
def replaceChar (s : String) (from_ to_ : Char) : String :=
  String.mk (s.data.map (fun c => if c = from_ then to_ else c))

/-- Model of Go `strings.HasPrefix(s, "-")` for the one-character case
used by parseCLI. -/
def startsWithChar (s : String) (c : Char) : Bool :=
  match s.data with
  | [] => false
  | x :: _ => x = c

/-- The built-in ParamType tags are plain Go strings (types.go). -/
def ParamTypeString : String := "string"

def ParamTypeInt : String := "int"

def ParamTypeInt64 : String := "int64"

def ParamTypeBool : String := "bool"

def ParamTypeDuration : String := "duration"

def ParamTypeJSON : String := "json"

/-- Param describes a declared configuration option (source.go). -/
structure Param where
  ParamType : String := ""
  Name : String := ""
  Default : String := ""
  Usage : String := ""
  Required : Bool := false
deriving DecidableEq

/-- A typed destination value, standing for what a filled slot holds.
Duration and JSON slots are not modelled: no claim exercises their
parsers (`time.ParseDuration` and `encoding/json.Unmarshal`). -/
inductive PVal where
  | str (s : String)
  | int (n : Int)
  | int64 (n : Int)
  | bool (b : Bool)
deriving DecidableEq

/-- Numeric value of a nonempty all-digit character list, else `none`. -/
def digitsVal (cs : List Char) : Option Nat :=
  if cs.isEmpty then none
  else cs.foldl (fun acc c =>
    match acc with
    | none => none
    | some a => if c.isDigit then some (a * 10 + (c.toNat - 48)) else none) (some 0)

/-- Model of Go `strconv.Atoi` (base 10, 64-bit int range): optional sign,
then at least one digit, range-checked. -/
def goAtoi (s : String) : Except String Int :=
  let sd : Bool × List Char :=
    match s.data with
    | '+' :: rest => (false, rest)
    | '-' :: rest => (true, rest)
    | l => (false, l)
  match digitsVal sd.2 with
  | none => .error ("strconv.Atoi: parsing " ++ s ++ ": invalid syntax")
  | some n =>
    let v : Int := if sd.1 then -(n : Int) else (n : Int)
    if v < -(2 ^ 63) ∨ 2 ^ 63 - 1 < v then
      .error ("strconv.Atoi: parsing " ++ s ++ ": value out of range")
    else .ok v

/-- parseParamTypeBool (types.go) writes `val != "" && val != "false"`
into the destination bool; the function itself never errors. -/
def parseParamTypeBool (val : String) : Bool :=
  val != "" && val != "false"

/-- The paramTypeParsers map (types.go), restricted to the slot types
modelled by `PVal`; `ParamTypeDuration` and `ParamTypeJSON` parsers are
not modelled (no claim depends on them), and unknown tags have no entry,
as in the Go map. -/
def paramTypeParsers (t : String) : Option (String → Except String PVal) :=
  if t = ParamTypeString then some (fun val => .ok (.str val))
  else if t = ParamTypeInt then some (fun val => (goAtoi val).map PVal.int)
  else if t = ParamTypeInt64 then some (fun val => (goAtoi val).map PVal.int64)
  else if t = ParamTypeBool then some (fun val => .ok (.bool (parseParamTypeBool val)))
  else none

/-- Source (source.go): an entity providing configuration values; its
`Parse` receives the declared params and returns a name-to-raw-value map
or an error. -/
structure Source where
  parse : List Param → Except String GoMap

/-- SourceStub (source.go): `Parse` returns the stub map as-is. -/
def SourceStub (m : GoMap) : Source :=
  ⟨fun _ => .ok m⟩

/-- Sources.Parse (source.go): call each Source in order, merging each
result over the accumulated map (so right-most values win); any error
aborts with no partial map. -/
def Sources_Parse (ss : List Source) (pp : List Param) : Except String GoMap :=
  ss.foldlM (fun vals s => do
    let sm ← s.parse pp
    pure (gMerge vals sm)) []

/-- The right-most binding for `k` among an ordered list of maps: later
maps take precedence over earlier ones. -/
def lookupRev (k : String) : List GoMap → Option String
  | [] => none
  | m :: rest =>
    match lookupRev k rest with
    | some v => some v
    | none => gLookup m k

/-- The env-var key of a parameter name (env.go): upper-case and replace
`-` with `_`. -/
def parseEnvName (name : String) : String :=
  replaceChar (goToUpper name) '-' '_'

/-- parseEnv (env.go): build the env-key-to-param map, then scan each
`KEY=value` entry; entries without `=` are a hard error, entries whose
key matches a declared param record its raw value. -/
def parseEnv (ee : List String) (pp : List Param) : Except String GoMap :=
  let envM : List (String × Param) :=
    pp.foldl (fun m p => gInsert m (parseEnvName p.Name) p) []
  ee.foldlM (fun ret e =>
    match splitN2 e '=' with
    | [k, v] =>
      .ok (match gLookup envM k with
        | some p => gInsert ret p.Name v
        | none => ret)
    | _ => .error ("malformed environment variable: " ++ e)) []

/-- parseEnv together with the caller-visible contents of the `pp` slice
after the call: the body of parseEnv only reads `pp`, so the slice is
returned unchanged. -/
def parseEnvCall (ee : List String) (pp : List Param) : Except String GoMap × List Param :=
  (parseEnv ee pp, pp)

/-- The process-wide registry `m` (lflag.go): name to declaration and
destination slot; slots are abstracted as numeric identities. -/
abbrev Registry := List (String × Param × Nat)

/-- newParam (lflag.go): look up the name; an existing entry with a
differing declaration panics (modelled as `.error`), an identical one is
re-stored unchanged and its slot returned, a fresh name is recorded with
the new slot. -/
def newParam (p : Param) (ptr : Nat) (m : Registry) : Except String (Nat × Registry) :=
  match gLookup m p.Name with
  | some pv =>
    if pv.1 ≠ p then
      .error ("param named \"" ++ p.Name ++ "\" already exists and differs from this new one")
    else .ok (pv.2, gInsert m p.Name pv)
  | none => .ok (ptr, gInsert m p.Name (p, ptr))

/-- The raw-value selection inside Parse's per-param loop (lflag.go):
provider value if present, else the default, else a fatal
"required but not set" fault (modelled as `.error`). -/
def rawValue (vals : GoMap) (p : Param) : Except String String :=
  match gLookup vals p.Name with
  | some val => .ok val
  | none =>
    if p.Required then
      .error ("parameter \"" ++ p.Name ++ "\" required but not set")
    else .ok p.Default

/-- The remainder of Parse's per-param loop (lflag.go): convert the
chosen raw value through paramTypeParsers into the slot, wrapping a
conversion failure with the parameter name. -/
def fillOne (vals : GoMap) (p : Param) : Except String PVal := do
  let val ← rawValue vals p
  match paramTypeParsers p.ParamType with
  | none => .error ("no parser modelled for ParamType " ++ p.ParamType)
  | some f =>
    match f val with
    | .ok v => .ok v
    | .error e => .error ("error parsing parameter " ++ p.Name ++ ": " ++ e)

/-- A callback passed to Do, abstracted to its observable scheduler
behaviour: a label identifying its execution and the further callbacks
it registers with Do, in order, while it runs. -/
inductive Cb where
  | mk (label : Nat) (nested : List Cb)

def Cb.label : Cb → Nat
  | .mk l _ => l

def Cb.nested : Cb → List Cb
  | .mk _ ns => ns

mutual

/-- The execution order of a Do call made while doneCh is closed
(lflag.go): the callback runs immediately, and every nested Do inside it
also runs immediately at its own registration point, depth-first. -/
def runInline : Cb → List Nat
  | .mk l ns => l :: runInlineList ns
termination_by c => sizeOf c

/-- Helper for `runInline`: run a registration sequence inline, in order. -/
def runInlineList : List Cb → List Nat
  | [] => []
  | c :: rest => runInline c ++ runInlineList rest
termination_by cs => sizeOf cs

end

/-- The queue-service loop formed by spin and Parse (lflag.go).  Parse
receives the head callback over callCh and runs it.  While further
callbacks remain queued, spin stays in its select, so Do calls made by
the running callback are appended to the tail of `dos`.  But the moment
the handed-over callback leaves `dos` empty, spin's loop exits and
closes doneCh while that callback is still running: every Do made from
inside it (and inside its nested callbacks) can find no queueCh
receiver, takes the closed-doneCh branch, and runs inline depth-first.
The empty seed function spin places in `dos` only delays the switch by
one observably silent step and is omitted.  The result is the order in
which callback labels begin executing. -/
def drain : List Cb → List Nat
  | [] => []
  | [c] => runInline c
  | Cb.mk l ns :: next :: rest => l :: drain ((next :: rest) ++ ns)
termination_by cs => sizeOf cs
decreasing_by
  have h : ∀ (xs ys : List Cb), sizeOf (xs ++ ys) + 1 = sizeOf xs + sizeOf ys := by
    intro xs ys
    induction xs with
    | nil => simp; omega
    | cons c tail ih => simp [List.cons_append]; omega
  have h2 := h (next :: rest) ns
  simp only [List.cons.sizeOf_spec, Cb.mk.sizeOf_spec] at h2 ⊢
  omega

/-- The append-only FIFO drain that the claim, the spec, and Do's own
doc comment describe ("the sent function is added to the queue at the
end and will be envoked once all queued up Do's are called") — modelled
from those words, not from the code, to be compared with `drain`: a
nested registration is always appended to the tail of the queue, never
run inline. -/
def fifoDrain : List Cb → List Nat
  | [] => []
  | Cb.mk l ns :: rest => l :: fifoDrain (rest ++ ns)
termination_by cs => sizeOf cs
decreasing_by
  have h : ∀ (xs ys : List Cb), sizeOf (xs ++ ys) + 1 = sizeOf xs + sizeOf ys := by
    intro xs ys
    induction xs with
    | nil => simp; omega
    | cons c tail ih => simp [List.cons_append]; omega
  have h2 := h rest ns
  simp only [List.cons.sizeOf_spec, Cb.mk.sizeOf_spec]
  omega

/-- The package-level mutable state of lflag.go: the registry `m`, the
scheduler phase (`done` is "doneCh closed"), the pending queue held by
spin, and the trace of executed callback labels. -/
structure LState where
  registry : Registry
  done : Bool
  queue : List Cb
  executed : List Nat

/-- Do (lflag.go): if doneCh is closed the callback runs immediately
(inline, including its nested Do calls); otherwise it is appended to the
pending queue. -/
def Do (c : Cb) (s : LState) : LState :=
  if s.done then { s with executed := s.executed ++ runInline c }
  else { s with queue := s.queue ++ [c] }

/-- Reset (lflag.go): kill spin, clear the registry, and recreate fresh
channels and a fresh spin, returning the scheduler to the accepting
state with an empty queue. -/
def Reset (s : LState) : LState :=
  { registry := [], done := false, queue := [], executed := s.executed }

/-- Parse (lflag.go): snapshot the declared params, ask the Source for
values, fill every slot (provider value, else default, else a fatal
required fault; then type conversion), then drain the whole Do queue and
clear the registry.  Returns the filled slots by name together with the
state after the pass.  Go closes doneCh before the final queued callback
finishes, so the closed/inline phase overlaps the end of the drain; that
overlap is carried by `drain` itself (its singleton case), and `done`
here is the state once Parse has returned, when doneCh is closed in
every execution. -/
def Parse (src : List Param → Except String GoMap) (s : LState) :
    Except String (List (String × PVal) × LState) :=
  match src (s.registry.map (fun kv => kv.2.1)) with
  | .error err => .error err
  | .ok vals =>
    match (s.registry.map (fun kv => kv.2.1)).mapM
        (fun p => (fillOne vals p).map (fun v => (p.Name, v))) with
    | .error err => .error err
    | .ok slots =>
      .ok (slots,
        { registry := [], done := true, queue := [],
          executed := s.executed ++ drain s.queue })

/-- The outcome of parseCLI (cli.go): a result map, or an early process
exit printing the help text (`-h`/`--help`) or the version text
(`-V`/`--version`). -/
inductive CLIRes where
  | found (m : GoMap)
  | help
  | version
deriving DecidableEq

/-- The effect of one iteration of parseCLI's scanning loop (cli.go) on
one token: exit for help/version, or continue after consuming `skip`
extra tokens (0 or 1) with the updated result map. -/
inductive CLIStep where
  | exitHelp
  | exitVersion
  | cont (skip : Nat) (found : GoMap)
deriving DecidableEq

/-- One iteration of parseCLI's loop body (cli.go).  The token is split
at its first `=`; help/version tokens exit; unknown tokens are skipped;
a bool param consumes a following non-flag-looking token as an explicit
value, else bare presence records `"true"` unless the default is
`"true"`, in which case it records `""`; a non-bool param without an `=`
consumes the next token unconditionally. -/
def parseCLIStep (cliM : List (String × Param)) (arg : String) (args : List String)
    (found : GoMap) : CLIStep :=
  let argParts := splitN2 arg '='
  let argName := argParts.headD ""
  if argName = "-h" ∨ argName = "--help" then .exitHelp
  else if argName = "-V" ∨ argName = "--version" then .exitVersion
  else
    let argValOk : Bool := argParts.length == 2
    let argVal := argParts.getD 1 ""
    match gLookup cliM argName with
    | none => .cont 0 found
    | some p =>
      if p.ParamType = ParamTypeBool then
        if argValOk then .cont 0 (gInsert found p.Name argVal)
        else
          match args with
          | [] => .cont 0 (gInsert found p.Name (if p.Default = "true" then "" else "true"))
          | next :: _ =>
            if startsWithChar next '-' then
              .cont 0 (gInsert found p.Name (if p.Default = "true" then "" else "true"))
            else .cont 1 (gInsert found p.Name next)
      else
        if argValOk then .cont 0 (gInsert found p.Name argVal)
        else
          match args with
          | [] => .cont 0 (gInsert found p.Name "")
          | next :: _ => .cont 1 (gInsert found p.Name next)

/-- The token-scanning loop of parseCLI (cli.go): run `parseCLIStep` on
the head token and continue past any tokens it consumed. -/
def parseCLIAux (cliM : List (String × Param)) : List String → GoMap → CLIRes
  | [], found => .found found
  | arg :: args, found =>
    match parseCLIStep cliM arg args found with
    | .exitHelp => .help
    | .exitVersion => .version
    | .cont skip newFound => parseCLIAux cliM (args.drop skip) newFound
termination_by cs => cs.length
decreasing_by
  simp
  omega

/-- Insert a param into a name-sorted list (ascending `Name`). -/
def insertByName (p : Param) : List Param → List Param
  | [] => [p]
  | q :: rest => if p.Name < q.Name then p :: q :: rest else q :: insertByName p rest

/-- The effect of cliHelpStr (cli.go) on its argument: `sort.Slice`
reorders the caller's `pp` slice in place by ascending name.  The
rendered help text itself is not modelled; no claim concerns it, only
the slice mutation is observable to parseCLI's caller. -/
def cliHelpStrSort (pp : List Param) : List Param :=
  pp.foldr insertByName []

/-- parseCLI (cli.go): build the `--name`-to-param map and scan the
arguments.  The second component is the caller-visible contents of the
`pp` slice when parseCLI is done with it: the loop itself never writes
to `pp`; only the help path (which ends in `os.Exit`) sorts it, via
cliHelpStr. -/
def parseCLI (args : List String) (pp : List Param) : CLIRes × List Param :=
  let cliM : List (String × Param) :=
    pp.foldl (fun m p => gInsert m ("--" ++ p.Name) p) []
  match parseCLIAux cliM args [] with
  | .help => (.help, cliHelpStrSort pp)
  | r => (r, pp)

/-- JSONStringAsIs (types.go): cast the raw JSON value to a string
unchanged (numbers, booleans, nested objects). -/
def JSONStringAsIs (j : String) : Except String String :=
  .ok j

/-- Hex digit value for `\u` escapes. -/
def hexVal (c : Char) : Option Nat :=
  if '0' ≤ c ∧ c ≤ '9' then some (c.toNat - 48)
  else if 'a' ≤ c ∧ c ≤ 'f' then some (c.toNat - 87)
  else if 'A' ≤ c ∧ c ≤ 'F' then some (c.toNat - 55)
  else none

/-- Decode the escape sequences of a JSON string body.  Models the
escape handling of `encoding/json` for the sequences it defines;
`\uXXXX` is decoded as a single scalar (surrogate-pair combining is not
modelled; no claim exercises it). -/
def jsonUnescape : List Char → Option (List Char)
  | [] => some []
  | '\\' :: 'u' :: a :: b :: c :: d :: rest => do
    let ha ← hexVal a
    let hb ← hexVal b
    let hc ← hexVal c
    let hd ← hexVal d
    let code := ((ha * 16 + hb) * 16 + hc) * 16 + hd
    let ch ← if h : code.isValidChar then some (Char.ofNatAux code h) else none
    let tail ← jsonUnescape rest
    some (ch :: tail)
  | '\\' :: e :: rest => do
    let ch ← match e with
      | '"' => some '"'
      | '\\' => some '\\'
      | '/' => some '/'
      | 'b' => some (Char.ofNat 8)
      | 'f' => some (Char.ofNat 12)
      | 'n' => some '\n'
      | 'r' => some (Char.ofNat 13)
      | 't' => some '\t'
      | _ => none
    let tail ← jsonUnescape rest
    some (ch :: tail)
  | '\\' :: [] => none
  | '"' :: _ => none
  | ch :: rest => do
    let tail ← jsonUnescape rest
    some (ch :: tail)

/-- JSONStringUnmarshal (types.go): `json.Unmarshal` of a raw JSON value
into a string, i.e. strip the surrounding quotes and decode escapes;
anything that is not a JSON string is an error. -/
def JSONStringUnmarshal (j : String) : Except String String :=
  match j.data with
  | '"' :: rest =>
    match rest.getLast? with
    | some '"' =>
      match jsonUnescape rest.dropLast with
      | some cs => .ok (String.mk cs)
      | none => .error ("json: invalid string literal " ++ j)
    | _ => .error ("json: invalid string literal " ++ j)
  | _ => .error ("json: cannot unmarshal value into string: " ++ j)

/-- The paramTypeJSONStringers map (types.go).  Note there is no entry
for `ParamTypeInt64`, matching the Go map. -/
def paramTypeJSONStringers (t : String) : Option (String → Except String String) :=
  if t = ParamTypeString then some JSONStringUnmarshal
  else if t = ParamTypeInt then some JSONStringAsIs
  else if t = ParamTypeBool then some JSONStringAsIs
  else if t = ParamTypeDuration then some JSONStringUnmarshal
  else if t = ParamTypeJSON then some JSONStringAsIs
  else none

/-- The extra param sourceJSON.Parse appends (json.go). -/
def configJSONFileParam : Param :=
  { ParamType := ParamTypeString, Name := "config-json-file",
    Usage := "Name of json file to parse config object out of. Environment and CLI params overwrite json ones" }

/-- The loop of sourceJSON.Parse (json.go) that turns the decoded
document `jm` into a raw-value map: for each param, a key (looked up by
lower-cased name) that is absent or bound to JSON `null` contributes
nothing; otherwise the value is converted by the param type's
JSONStringFunc (a missing map entry would be a nil-function panic in Go,
modelled as an error). -/
def jsonOutFold (stringers : String → Option (String → Except String String))
    (jm : GoMap) (out : GoMap) : List Param → Except String GoMap
  | [] => .ok out
  | p :: rest =>
    match gLookup jm (goToLower p.Name) with
    | none => jsonOutFold stringers jm out rest
    | some j =>
      if j = "null" then jsonOutFold stringers jm out rest
      else
        match stringers p.ParamType with
        | none => .error ("nil JSONStringFunc for ParamType " ++ p.ParamType)
        | some f =>
          match f j with
          | .error e => .error e
          | .ok str => jsonOutFold stringers jm (gInsert out p.Name str) rest

/-- sourceJSON.Parse (json.go): append the config-json-file param, run
the inner Source, then — when a decoded document is present — build the
document's raw-value map and merge the inner result over it (inner
values win).  File opening and JSON decoding are outside the model: the
already-decoded document is passed as `doc` (`none` when no file is
configured), exactly the seam the package's own test uses via
`testJSONFile`.  The stringer map is a parameter because Go's
`paramTypeJSONStringers` is extensible via CustomParamType. -/
def sourceJSON_Parse (stringers : String → Option (String → Except String String))
    (innerSrc : List Param → Except String GoMap) (doc : Option GoMap)
    (pp : List Param) : Except String GoMap :=
  match innerSrc (pp ++ [configJSONFileParam]) with
  | .error err => .error err
  | .ok m =>
    match doc with
    | none => .ok m
    | some jm =>
      match jsonOutFold stringers jm [] (pp ++ [configJSONFileParam]) with
      | .error err => .error err
      | .ok out => .ok (gMerge out m)

/-- sourceJSON.Parse together with the caller-visible contents of the
`pp` slice after the call: the body only ever rebinds its local slice
header (`pp = append(pp, ...)`), which cannot change the caller's
elements, so the slice is returned unchanged. -/
def sourceJSON_ParseCall (stringers : String → Option (String → Except String String))
    (innerSrc : List Param → Except String GoMap) (doc : Option GoMap)
    (pp : List Param) : Except String GoMap × List Param :=
  (sourceJSON_Parse stringers innerSrc doc pp, pp)

theorem gLookup_gInsert {β : Type} (m : List (String × β)) (k k' : String) (v : β) :
    gLookup (gInsert m k v) k' = if k' = k then some v else gLookup m k' := by
  induction m with
  | nil => simp [gInsert, gLookup, eq_comm]
  | cons kv rest ih =>
    by_cases h1 : kv.1 = k
    · rw [show gInsert (kv :: rest) k v = gInsert rest k v from by simp [gInsert, h1]]
      rw [ih]
      by_cases h2 : k' = k
      · simp [h2]
      · have h3 : ¬ kv.1 = k' := by rw [h1]; exact fun he => h2 he.symm
        simp [gLookup, h2, h3]
    · rw [show gInsert (kv :: rest) k v = kv :: gInsert rest k v from by simp [gInsert, h1]]
      by_cases h2 : kv.1 = k'
      · have h4 : ¬ k' = k := fun he => h1 (h2.trans he)
        simp [gLookup, h2, h4]
      · simp [gLookup, h2, ih]

theorem gLookup_eq_none_of_not_mem {β : Type} (m : List (String × β)) (k : String)
    (h : k ∉ m.map Prod.fst) : gLookup m k = none := by
  induction m with
  | nil => simp [gLookup]
  | cons kv rest ih =>
    simp only [List.map_cons, List.mem_cons] at h
    push_neg at h
    have : ¬ kv.1 = k := fun he => h.1 he.symm
    simp [gLookup, this, ih h.2]

theorem gLookup_gMerge {β : Type} (base sm : List (String × β)) (k : String)
    (h : (sm.map Prod.fst).Nodup) :
    gLookup (gMerge base sm) k =
      match gLookup sm k with
      | some v => some v
      | none => gLookup base k := by
  induction sm generalizing base with
  | nil => rfl
  | cons kv rest ih =>
    simp only [List.map_cons, List.nodup_cons] at h
    have hstep : gMerge base (kv :: rest) = gMerge (gInsert base kv.1 kv.2) rest := rfl
    rw [hstep, ih _ h.2]
    by_cases hk : kv.1 = k
    · subst hk
      have hnone : gLookup rest kv.1 = none := gLookup_eq_none_of_not_mem _ _ h.1
      simp [gLookup, hnone, gLookup_gInsert]
    · have hk' : ¬ k = kv.1 := fun he => hk he.symm
      simp [gLookup, hk, hk', gLookup_gInsert]

theorem drain_singleton (c : Cb) : drain [c] = runInline c := by
  rw [drain]

theorem drain_cons2 (l : Nat) (ns : List Cb) (next : Cb) (rest : List Cb) :
    drain (Cb.mk l ns :: next :: rest) = l :: drain ((next :: rest) ++ ns) := by
  rw [drain]

/-- C1 (divergence evaluation): nested Do registrations are not always
appended to the end of the queue.  Once the callback that empties the
queue has been handed to Parse, spin has already exited and closed
doneCh, so registrations made from inside that still-running callback
execute inline, depth-first: for a drain whose only queued callback 5
registers callbacks 6 and 7, with 6 registering 8, the code executes
5, 6, 8, 7 (conjunct 1), while the append-to-tail FIFO order the claim
and Do's own doc comment promise is 5, 6, 7, 8 (conjuncts 2 and 3).  A
callback that is not the last one queued does have its registrations
appended, where the two drains agree (conjuncts 4 and 5). -/
theorem drain_last_callback_inline :
    drain [Cb.mk 5 [Cb.mk 6 [Cb.mk 8 []], Cb.mk 7 []]] = [5, 6, 8, 7] ∧
    fifoDrain [Cb.mk 5 [Cb.mk 6 [Cb.mk 8 []], Cb.mk 7 []]] = [5, 6, 7, 8] ∧
    drain [Cb.mk 5 [Cb.mk 6 [Cb.mk 8 []], Cb.mk 7 []]] ≠
      fifoDrain [Cb.mk 5 [Cb.mk 6 [Cb.mk 8 []], Cb.mk 7 []]] ∧
    drain [Cb.mk 0 [Cb.mk 2 []], Cb.mk 1 []] = [0, 1, 2] ∧
    fifoDrain [Cb.mk 0 [Cb.mk 2 []], Cb.mk 1 []] = [0, 1, 2] := by
  refine ⟨?_, ?_, ?_, ?_, ?_⟩ <;>
    simp [drain_singleton, drain_cons2, fifoDrain, runInline, runInlineList]

/-- C8: Reset, called from the closed state with no drain in flight,
returns the registry and scheduler to a clean initial state: every
previously declared parameter is gone from the registry, the scheduler
is accepting again with a fresh empty queue, and a subsequent Do call
queues its callback for the next Parse instead of running it inline. -/
theorem Reset_clean_state (s : LState) (c : Cb)
    (hdone : s.done = true) (hq : s.queue = []) :
    (Reset s).registry = [] ∧
    (∀ name, gLookup (Reset s).registry name = none) ∧
    (Reset s).done = false ∧
    (Reset s).queue = [] ∧
    Do c (Reset s) =
      { registry := [], done := false, queue := [c], executed := s.executed } := by
  refine ⟨rfl, fun name => rfl, rfl, rfl, ?_⟩
  simp [Reset, Do]

theorem Reset_clean_state_witness :
    (Reset { registry := [("x", ({ ParamType := ParamTypeString, Name := "x" } : Param), 0)],
             done := true, queue := [], executed := [3] }).registry = [] ∧
    Do (Cb.mk 9 []) (Reset { registry := [("x", ({ ParamType := ParamTypeString, Name := "x" } : Param), 0)],
                             done := true, queue := [], executed := [3] }) =
      { registry := [], done := false, queue := [Cb.mk 9 []], executed := [3] } := by
  have h := Reset_clean_state
    { registry := [("x", ({ ParamType := ParamTypeString, Name := "x" } : Param), 0)],
      done := true, queue := [], executed := [3] } (Cb.mk 9 []) rfl rfl
  exact ⟨h.1, h.2.2.2.2⟩

/-- C2 (counterexample evaluation): the built-in boolean conversion does
NOT yield true only on `"true"`.  parseParamTypeBool converts any
non-empty string other than `"false"` to true, so the raw value
`"anything-else"` converts to true, contradicting the claim (and the
Source interface's own note that the only valid true value is `"true"`,
all other values being considered false).  The listed cases `"true"`,
`""` and `"false"` do behave as claimed. -/
theorem parseParamTypeBool_eval :
    parseParamTypeBool "anything-else" = true ∧
    parseParamTypeBool "true" = true ∧
    parseParamTypeBool "" = false ∧
    parseParamTypeBool "false" = false := by
  refine ⟨?_, ?_, ?_, ?_⟩ <;> rfl

/-- C4: declaring a fresh name records it and returns the new slot;
redeclaring a name with an identical declaration returns the original
slot and leaves the registry's content unchanged; redeclaring with a
differing declaration faults fatally (newParam panics, modelled as
`.error`). -/
theorem newParam_registry_behavior :
    (∀ (p : Param) (ptr : Nat) (m : Registry), gLookup m p.Name = none →
      newParam p ptr m = .ok (ptr, gInsert m p.Name (p, ptr)) ∧
      gLookup (gInsert m p.Name (p, ptr)) p.Name = some (p, ptr) ∧
      ∀ k, k ≠ p.Name → gLookup (gInsert m p.Name (p, ptr)) k = gLookup m k)
    ∧ (∀ (p : Param) (ptr ptr0 : Nat) (m : Registry),
        gLookup m p.Name = some (p, ptr0) →
        newParam p ptr m = .ok (ptr0, gInsert m p.Name (p, ptr0)) ∧
        ∀ k, gLookup (gInsert m p.Name (p, ptr0)) k = gLookup m k)
    ∧ (∀ (p q : Param) (ptr ptr0 : Nat) (m : Registry),
        gLookup m p.Name = some (q, ptr0) → q ≠ p →
        newParam p ptr m =
          .error ("param named \"" ++ p.Name ++ "\" already exists and differs from this new one")) := by
  refine ⟨?_, ?_, ?_⟩
  · intro p ptr m h
    refine ⟨?_, ?_, ?_⟩
    · simp [newParam, h]
    · simp [gLookup_gInsert]
    · intro k hk
      simp [gLookup_gInsert, hk]
  · intro p ptr ptr0 m h
    refine ⟨?_, ?_⟩
    · simp [newParam, h]
    · intro k
      rw [gLookup_gInsert]
      by_cases hk : k = p.Name
      · subst hk; simp [h]
      · simp [hk]
  · intro p q ptr ptr0 m h hne
    simp [newParam, h, hne]

theorem newParam_registry_behavior_witness :
    newParam ({ ParamType := ParamTypeString, Name := "a", Default := "d" } : Param) 1 [] =
      .ok (1, [("a", ({ ParamType := ParamTypeString, Name := "a", Default := "d" } : Param), 1)]) ∧
    newParam ({ ParamType := ParamTypeString, Name := "a", Default := "d" } : Param) 2
        [("a", ({ ParamType := ParamTypeString, Name := "a", Default := "d" } : Param), 1)] =
      .ok (1, [("a", ({ ParamType := ParamTypeString, Name := "a", Default := "d" } : Param), 1)]) ∧
    newParam ({ ParamType := ParamTypeString, Name := "a", Default := "other" } : Param) 2
        [("a", ({ ParamType := ParamTypeString, Name := "a", Default := "d" } : Param), 1)] =
      .error ("param named \"a\" already exists and differs from this new one") := by
  refine ⟨?_, ?_, ?_⟩
  · have h := newParam_registry_behavior.1
      ({ ParamType := ParamTypeString, Name := "a", Default := "d" } : Param) 1 [] rfl
    rw [h.1]
    rfl
  · have h := newParam_registry_behavior.2.1
      ({ ParamType := ParamTypeString, Name := "a", Default := "d" } : Param) 2 1
      [("a", ({ ParamType := ParamTypeString, Name := "a", Default := "d" } : Param), 1)]
      (by simp [gLookup])
    rw [h.1]
    rfl
  · exact newParam_registry_behavior.2.2
      ({ ParamType := ParamTypeString, Name := "a", Default := "other" } : Param)
      ({ ParamType := ParamTypeString, Name := "a", Default := "d" } : Param) 2 1
      [("a", ({ ParamType := ParamTypeString, Name := "a", Default := "d" } : Param), 1)]
      (by simp [gLookup]) (by decide)

theorem exceptBind_ok {ε α β : Type} (a : α) (f : α → Except ε β) :
    (Except.ok a >>= f) = f a := rfl

theorem exceptBind_error {ε α β : Type} (e : ε) (f : α → Except ε β) :
    ((Except.error e : Except ε α) >>= f) = Except.error e := rfl

theorem exceptMap_error {ε α β : Type} (f : α → β) (e : ε) :
    Except.map f (Except.error e : Except ε α) = (Except.error e : Except ε β) := rfl

theorem exceptFmap_error {ε α β : Type} (f : α → β) (e : ε) :
    (f <$> (Except.error e : Except ε α)) = (Except.error e : Except ε β) := rfl

/-- C3: during a Parse resolution pass every declared parameter's raw
value is chosen by precedence — the provider's value for its name when
present (conjunct 1), else its default (conjunct 2), else, when
required, a fatal "required but not set" fault (conjuncts 3 and 5,
modelled as `.error`); the chosen raw value is then converted into the
parameter's slot, so a string parameter with an unset provider value
ends up holding its default (conjunct 4). -/
theorem Parse_raw_value_precedence :
    (∀ (vals : GoMap) (p : Param) (v : String), gLookup vals p.Name = some v →
      rawValue vals p = .ok v)
    ∧ (∀ (vals : GoMap) (p : Param), gLookup vals p.Name = none → p.Required = false →
        rawValue vals p = .ok p.Default)
    ∧ (∀ (vals : GoMap) (p : Param), gLookup vals p.Name = none → p.Required = true →
        rawValue vals p = .error ("parameter \"" ++ p.Name ++ "\" required but not set"))
    ∧ (∀ (vals : GoMap) (p : Param), gLookup vals p.Name = none → p.Required = false →
        p.ParamType = ParamTypeString → fillOne vals p = .ok (.str p.Default))
    ∧ (∀ (vals : GoMap) (p : Param) (s : LState),
        s.registry = [(p.Name, p, 0)] → gLookup vals p.Name = none → p.Required = true →
        Parse (fun _ => .ok vals) s =
          .error ("parameter \"" ++ p.Name ++ "\" required but not set")) := by
  refine ⟨?_, ?_, ?_, ?_, ?_⟩
  · intro vals p v h
    simp [rawValue, h]
  · intro vals p h hr
    simp [rawValue, h, hr]
  · intro vals p h hr
    simp [rawValue, h, hr]
  · intro vals p h hr ht
    simp [fillOne, rawValue, h, hr, ht, paramTypeParsers, exceptBind_ok]
  · intro vals p s hreg h hr
    have hfill : fillOne vals p =
        .error ("parameter \"" ++ p.Name ++ "\" required but not set") := by
      simp [fillOne, rawValue, h, hr, exceptBind_error]
    obtain ⟨reg, d, q, ex⟩ := s
    simp only [LState.registry] at hreg
    subst hreg
    simp [Parse, List.mapM, List.mapM.loop, hfill, exceptMap_error, exceptFmap_error]

theorem Parse_raw_value_precedence_witness :
    rawValue [("s", "v")] ({ ParamType := ParamTypeString, Name := "s", Default := "x" } : Param) = .ok "v" ∧
    rawValue [] ({ ParamType := ParamTypeString, Name := "s", Default := "x" } : Param) = .ok "x" ∧
    rawValue [] ({ ParamType := ParamTypeString, Name := "r", Required := true } : Param) =
      .error "parameter \"r\" required but not set" ∧
    fillOne [] ({ ParamType := ParamTypeString, Name := "s", Default := "x" } : Param) = .ok (.str "x") ∧
    Parse (fun _ => .ok [])
        { registry := [("r", ({ ParamType := ParamTypeString, Name := "r", Required := true } : Param), 0)],
          done := false, queue := [], executed := [] } =
      .error "parameter \"r\" required but not set" := by
  refine ⟨?_, ?_, ?_, ?_, ?_⟩
  · exact Parse_raw_value_precedence.1 _ _ "v" rfl
  · exact Parse_raw_value_precedence.2.1 _ _ rfl rfl
  · exact Parse_raw_value_precedence.2.2.1 _ _ rfl rfl
  · exact Parse_raw_value_precedence.2.2.2.1 _ _ rfl rfl rfl
  · exact Parse_raw_value_precedence.2.2.2.2 []
      ({ ParamType := ParamTypeString, Name := "r", Required := true } : Param) _ rfl rfl rfl

/-- C10: the required check in Parse tests only key presence in the
provider result, so a required parameter whose provider value is the
empty string does not fault: the empty string is handed to the type
parser (conjunct 1) and, for a string parameter, written into the slot,
overriding any default (conjunct 2); the environment source does produce
such empty-string entries from `KEY=` inputs (conjunct 3). -/
theorem required_empty_string_ok :
    (∀ (vals : GoMap) (p : Param), p.Required = true → gLookup vals p.Name = some "" →
      rawValue vals p = .ok "")
    ∧ (∀ (vals : GoMap) (p : Param), p.ParamType = ParamTypeString →
        gLookup vals p.Name = some "" → fillOne vals p = .ok (.str ""))
    ∧ (∀ (p : Param), splitN2 (parseEnvName p.Name ++ "=") '=' = [parseEnvName p.Name, ""] →
        parseEnv [parseEnvName p.Name ++ "="] [p] = .ok [(p.Name, "")]) := by
  refine ⟨?_, ?_, ?_⟩
  · intro vals p _ h
    simp [rawValue, h]
  · intro vals p ht h
    simp [fillOne, rawValue, h, ht, paramTypeParsers, exceptBind_ok]
  · intro p hs
    unfold parseEnv
    simp [List.foldlM, hs, gLookup, gInsert, exceptBind_ok]

theorem required_empty_string_ok_witness :
    rawValue [("foo", "")] ({ ParamType := ParamTypeString, Name := "foo", Required := true } : Param) =
      .ok "" ∧
    fillOne [("foo", "")] ({ ParamType := ParamTypeString, Name := "foo", Required := true } : Param) =
      .ok (.str "") ∧
    parseEnv ["FOO="] [({ ParamType := ParamTypeString, Name := "foo", Required := true } : Param)] =
      .ok [("foo", "")] := by
  refine ⟨?_, ?_, ?_⟩
  · exact required_empty_string_ok.1 _ _ rfl rfl
  · exact required_empty_string_ok.2.1 _ _ rfl rfl
  · exact required_empty_string_ok.2.2
      ({ ParamType := ParamTypeString, Name := "foo", Required := true } : Param) rfl

theorem Sources_Parse_stubs_eq_foldl (ms : List GoMap) (pp : List Param) (init : GoMap) :
    (ms.map SourceStub).foldlM (fun vals s => do
      let sm ← s.parse pp
      pure (gMerge vals sm)) init = .ok (ms.foldl gMerge init) := by
  induction ms generalizing init with
  | nil => rfl
  | cons m rest ih => exact ih (gMerge init m)

theorem gLookup_foldl_gMerge (ms : List GoMap) (base : GoMap) (k : String)
    (h : ∀ m ∈ ms, (m.map Prod.fst).Nodup) :
    gLookup (ms.foldl gMerge base) k =
      match lookupRev k ms with
      | some v => some v
      | none => gLookup base k := by
  induction ms generalizing base with
  | nil => rfl
  | cons m rest ih =>
    have hm : (m.map Prod.fst).Nodup := h m (List.mem_cons_self m rest)
    have hrest : ∀ x ∈ rest, (x.map Prod.fst).Nodup :=
      fun x hx => h x (List.mem_cons_of_mem m hx)
    show gLookup (rest.foldl gMerge (gMerge base m)) k = _
    rw [ih (gMerge base m) hrest]
    simp only [lookupRev]
    cases hr : lookupRev k rest with
    | some v => rfl
    | none =>
      rw [gLookup_gMerge base m k hm]
      cases gLookup m k <;> simp

theorem Sources_Parse_error_aux (ms : List GoMap) (e : String) (rest : List Source)
    (pp : List Param) (init : GoMap) :
    (ms.map SourceStub ++ (⟨fun _ => .error e⟩ : Source) :: rest).foldlM (fun vals s => do
      let sm ← s.parse pp
      pure (gMerge vals sm)) init = .error e := by
  induction ms generalizing init with
  | nil => rfl
  | cons m tail ih => exact ih (gMerge init m)

/-- C5: the composite Sources type calls each Source in order and merges
the result maps with right-most precedence — running a list of stub
providers yields exactly the left-to-right merge of their maps, in which
a key's value is the one from the right-most provider containing it and
every non-colliding key is present (conjunct 1, via `lookupRev`); and a
Source that fails makes the composite return that failure with no
partial result map (conjunct 2). -/
theorem Sources_Parse_merge :
    (∀ (ms : List GoMap) (pp : List Param),
      (∀ m ∈ ms, (m.map Prod.fst).Nodup) →
      Sources_Parse (ms.map SourceStub) pp = .ok (ms.foldl gMerge []) ∧
      ∀ k, gLookup (ms.foldl gMerge []) k = lookupRev k ms)
    ∧ (∀ (ms : List GoMap) (e : String) (rest : List Source) (pp : List Param),
        Sources_Parse (ms.map SourceStub ++ (⟨fun _ => .error e⟩ : Source) :: rest) pp =
          .error e) := by
  constructor
  · intro ms pp h
    refine ⟨Sources_Parse_stubs_eq_foldl ms pp [], ?_⟩
    intro k
    rw [gLookup_foldl_gMerge ms [] k h]
    cases lookupRev k ms <;> rfl
  · intro ms e rest pp
    exact Sources_Parse_error_aux ms e rest pp []

theorem Sources_Parse_merge_witness :
    Sources_Parse [SourceStub [("a", "1")], SourceStub [("a", "2"), ("b", "3")]] [] =
      .ok [("a", "2"), ("b", "3")] ∧
    gLookup [("a", "2"), ("b", "3")] "a" =
      lookupRev "a" [[("a", "1")], [("a", "2"), ("b", "3")]] ∧
    Sources_Parse [SourceStub [("a", "1")], (⟨fun _ => .error "boom"⟩ : Source)] [] =
      .error "boom" := by
  have h := Sources_Parse_merge.1 [[("a", "1")], [("a", "2"), ("b", "3")]] [] (by decide)
  refine ⟨h.1, ?_, ?_⟩
  · exact h.2 "a"
  · exact Sources_Parse_merge.2 [[("a", "1")]] "boom" [] []

theorem parseCLIAux_nil (cliM : List (String × Param)) (found : GoMap) :
    parseCLIAux cliM [] found = .found found := by
  rw [parseCLIAux]

/-- C6: for a boolean-typed declared parameter, parseCLI takes a
following non-flag-looking token as the explicit override (conjunct 1),
and an `=value` on the flag token likewise (conjunct 4); otherwise bare
presence — next token flag-looking (conjunct 2) or end of arguments
(conjunct 3) — records `"true"`, unless the parameter's default is
`"true"`, in which case it records `""`; under the boolean conversion
`"true"` means true and `""` means false (conjunct 5). -/
theorem parseCLI_bool_flag (cliM : List (String × Param)) (p : Param)
    (hb : p.ParamType = ParamTypeBool) :
    (∀ (t next : String) (args : List String) (found : GoMap),
      splitN2 t '=' = [t] → t ≠ "-h" → t ≠ "--help" → t ≠ "-V" → t ≠ "--version" →
      gLookup cliM t = some p → startsWithChar next '-' = false →
      parseCLIAux cliM (t :: next :: args) found =
        parseCLIAux cliM args (gInsert found p.Name next))
    ∧ (∀ (t next : String) (args : List String) (found : GoMap),
        splitN2 t '=' = [t] → t ≠ "-h" → t ≠ "--help" → t ≠ "-V" → t ≠ "--version" →
        gLookup cliM t = some p → startsWithChar next '-' = true →
        parseCLIAux cliM (t :: next :: args) found =
          parseCLIAux cliM (next :: args)
            (gInsert found p.Name (if p.Default = "true" then "" else "true")))
    ∧ (∀ (t : String) (found : GoMap),
        splitN2 t '=' = [t] → t ≠ "-h" → t ≠ "--help" → t ≠ "-V" → t ≠ "--version" →
        gLookup cliM t = some p →
        parseCLIAux cliM [t] found =
          .found (gInsert found p.Name (if p.Default = "true" then "" else "true")))
    ∧ (∀ (t tn tv : String) (args : List String) (found : GoMap),
        splitN2 t '=' = [tn, tv] → tn ≠ "-h" → tn ≠ "--help" → tn ≠ "-V" → tn ≠ "--version" →
        gLookup cliM tn = some p →
        parseCLIAux cliM (t :: args) found =
          parseCLIAux cliM args (gInsert found p.Name tv))
    ∧ (parseParamTypeBool "true" = true ∧ parseParamTypeBool "" = false) := by
  refine ⟨?_, ?_, ?_, ?_, rfl, rfl⟩
  · intro t next args found hsplit hh1 hh2 hv1 hv2 hp hsw
    have hstep : parseCLIStep cliM t (next :: args) found = .cont 1 (gInsert found p.Name next) := by
      simp [parseCLIStep, hsplit, hh1, hh2, hv1, hv2, hp, hb, hsw]
    rw [parseCLIAux, hstep]
    rfl
  · intro t next args found hsplit hh1 hh2 hv1 hv2 hp hsw
    have hstep : parseCLIStep cliM t (next :: args) found =
        .cont 0 (gInsert found p.Name (if p.Default = "true" then "" else "true")) := by
      simp [parseCLIStep, hsplit, hh1, hh2, hv1, hv2, hp, hb, hsw]
    rw [parseCLIAux, hstep]
    rfl
  · intro t found hsplit hh1 hh2 hv1 hv2 hp
    have hstep : parseCLIStep cliM t [] found =
        .cont 0 (gInsert found p.Name (if p.Default = "true" then "" else "true")) := by
      simp [parseCLIStep, hsplit, hh1, hh2, hv1, hv2, hp, hb]
    rw [parseCLIAux, hstep]
    exact parseCLIAux_nil cliM _
  · intro t tn tv args found hsplit hh1 hh2 hv1 hv2 hp
    have hstep : parseCLIStep cliM t args found = .cont 0 (gInsert found p.Name tv) := by
      simp [parseCLIStep, hsplit, hh1, hh2, hv1, hv2, hp, hb]
    rw [parseCLIAux, hstep]
    rfl

theorem parseCLI_bool_flag_witness :
    parseCLIAux [("--flag1", (⟨ParamTypeBool, "flag1", "", "", false⟩ : Param)),
        ("--flag2", (⟨ParamTypeBool, "flag2", "true", "", false⟩ : Param))]
      ["--flag1", "false"] [] = .found [("flag1", "false")] ∧
    parseCLIAux [("--flag1", (⟨ParamTypeBool, "flag1", "", "", false⟩ : Param)),
        ("--flag2", (⟨ParamTypeBool, "flag2", "true", "", false⟩ : Param))]
      ["--flag1", "--flag2"] [] = .found [("flag1", "true"), ("flag2", "")] ∧
    parseCLIAux [("--flag1", (⟨ParamTypeBool, "flag1", "", "", false⟩ : Param)),
        ("--flag2", (⟨ParamTypeBool, "flag2", "true", "", false⟩ : Param))]
      ["--flag2"] [] = .found [("flag2", "")] ∧
    parseCLIAux [("--flag1", (⟨ParamTypeBool, "flag1", "", "", false⟩ : Param)),
        ("--flag2", (⟨ParamTypeBool, "flag2", "true", "", false⟩ : Param))]
      ["--flag1=maybe"] [] = .found [("flag1", "maybe")] := by
  have h1 := parseCLI_bool_flag
    [("--flag1", (⟨ParamTypeBool, "flag1", "", "", false⟩ : Param)),
     ("--flag2", (⟨ParamTypeBool, "flag2", "true", "", false⟩ : Param))]
    (⟨ParamTypeBool, "flag1", "", "", false⟩ : Param) rfl
  have h2 := parseCLI_bool_flag
    [("--flag1", (⟨ParamTypeBool, "flag1", "", "", false⟩ : Param)),
     ("--flag2", (⟨ParamTypeBool, "flag2", "true", "", false⟩ : Param))]
    (⟨ParamTypeBool, "flag2", "true", "", false⟩ : Param) rfl
  refine ⟨?_, ?_, ?_, ?_⟩
  · rw [h1.1 "--flag1" "false" [] [] rfl (by decide) (by decide) (by decide) (by decide) rfl rfl]
    rw [parseCLIAux_nil]
    rfl
  · rw [h1.2.1 "--flag1" "--flag2" [] [] rfl (by decide) (by decide) (by decide) (by decide) rfl rfl]
    rw [h2.2.2.1 "--flag2" _ rfl (by decide) (by decide) (by decide) (by decide) rfl]
    rfl
  · rw [h2.2.2.1 "--flag2" _ rfl (by decide) (by decide) (by decide) (by decide) rfl]
    rfl
  · rw [h1.2.2.2.1 "--flag1=maybe" "--flag1" "maybe" [] [] rfl (by decide) (by decide)
      (by decide) (by decide) rfl]
    rw [parseCLIAux_nil]
    rfl

theorem jsonOutFold_lookup_skip (st : String → Option (String → Except String String))
    (jm : GoMap) (name : String) (pp : List Param) (out out' : GoMap)
    (hnull : ∀ q ∈ pp, q.Name = name →
      gLookup jm (goToLower q.Name) = none ∨ gLookup jm (goToLower q.Name) = some "null")
    (h : jsonOutFold st jm out pp = .ok out') :
    gLookup out' name = gLookup out name := by
  induction pp generalizing out with
  | nil =>
    unfold jsonOutFold at h
    injection h with h2
    subst h2
    rfl
  | cons p rest ih =>
    have hrest : ∀ q ∈ rest, q.Name = name →
        gLookup jm (goToLower q.Name) = none ∨ gLookup jm (goToLower q.Name) = some "null" :=
      fun q hq => hnull q (List.mem_cons_of_mem p hq)
    unfold jsonOutFold at h
    cases hj : gLookup jm (goToLower p.Name) with
    | none =>
      rw [hj] at h
      exact ih out hrest h
    | some j =>
      rw [hj] at h
      by_cases hjn : j = "null"
      · subst hjn
        exact ih out hrest h
      · dsimp only [] at h
        rw [if_neg hjn] at h
        cases hst : st p.ParamType with
        | none => rw [hst] at h; exact Except.noConfusion h
        | some f =>
          rw [hst] at h
          dsimp only [] at h
          cases hfj : f j with
          | error e => rw [hfj] at h; exact Except.noConfusion h
          | ok str =>
            rw [hfj] at h
            have hpn : p.Name ≠ name := by
              intro he
              rcases hnull p (List.mem_cons_self p rest) he with hc | hc
              · rw [hj] at hc; exact Option.noConfusion hc
              · rw [hj] at hc
                injection hc with hc2
                exact hjn hc2
            have hpn2 : ¬ name = p.Name := fun he => hpn he.symm
            rw [ih (gInsert out p.Name str) hrest h, gLookup_gInsert]
            simp [hpn2]

/-- C7: for a JSON-file source wrapping an inner Source, a key whose
value in the decoded document is the JSON literal null contributes
nothing to the result — the looked-up name resolves exactly as the inner
Source alone would resolve it (conjunct 1) — and every key present in
the inner Source's result keeps the inner Source's value in the returned
map (conjunct 2). -/
theorem sourceJSON_null_and_precedence :
    (∀ (st : String → Option (String → Except String String))
      (inner : List Param → Except String GoMap) (jm : GoMap) (pp : List Param)
      (m res : GoMap) (name : String),
      inner (pp ++ [configJSONFileParam]) = .ok m →
      sourceJSON_Parse st inner (some jm) pp = .ok res →
      (m.map Prod.fst).Nodup →
      (∀ q ∈ pp ++ [configJSONFileParam], q.Name = name →
        gLookup jm (goToLower q.Name) = none ∨ gLookup jm (goToLower q.Name) = some "null") →
      gLookup res name = gLookup m name)
    ∧ (∀ (st : String → Option (String → Except String String))
        (inner : List Param → Except String GoMap) (jm : GoMap) (pp : List Param)
        (m res : GoMap) (k v : String),
        inner (pp ++ [configJSONFileParam]) = .ok m →
        sourceJSON_Parse st inner (some jm) pp = .ok res →
        (m.map Prod.fst).Nodup →
        gLookup m k = some v →
        gLookup res k = some v) := by
  constructor
  · intro st inner jm pp m res name hinner h hnodup hnull
    unfold sourceJSON_Parse at h
    rw [hinner] at h
    dsimp only [] at h
    cases hout : jsonOutFold st jm [] (pp ++ [configJSONFileParam]) with
    | error e => rw [hout] at h; exact Except.noConfusion h
    | ok out =>
      rw [hout] at h
      injection h with h2
      subst h2
      rw [gLookup_gMerge out m name hnodup]
      have hskip : gLookup out name = gLookup ([] : GoMap) name :=
        jsonOutFold_lookup_skip st jm name (pp ++ [configJSONFileParam]) [] out hnull hout
      cases gLookup m name with
      | none => simpa using hskip
      | some v => rfl
  · intro st inner jm pp m res k v hinner h hnodup hmk
    unfold sourceJSON_Parse at h
    rw [hinner] at h
    dsimp only [] at h
    cases hout : jsonOutFold st jm [] (pp ++ [configJSONFileParam]) with
    | error e => rw [hout] at h; exact Except.noConfusion h
    | ok out =>
      rw [hout] at h
      injection h with h2
      subst h2
      rw [gLookup_gMerge out m k hnodup, hmk]

theorem sourceJSON_null_and_precedence_witness :
    sourceJSON_Parse paramTypeJSONStringers (fun _ => .ok [("str2", "bar")])
        (some [("str2", "\"broken\""), ("nullkey", "null"), ("int", "7")])
        [(⟨ParamTypeString, "str2", "", "", false⟩ : Param),
         (⟨ParamTypeString, "nullkey", "", "", false⟩ : Param),
         (⟨ParamTypeInt, "int", "", "", false⟩ : Param)] =
      .ok [("int", "7"), ("str2", "bar")] ∧
    gLookup [("int", "7"), ("str2", "bar")] "nullkey" = none ∧
    gLookup [("int", "7"), ("str2", "bar")] "str2" = some "bar" := by
  have hparse : sourceJSON_Parse paramTypeJSONStringers (fun _ => .ok [("str2", "bar")])
      (some [("str2", "\"broken\""), ("nullkey", "null"), ("int", "7")])
      [(⟨ParamTypeString, "str2", "", "", false⟩ : Param),
       (⟨ParamTypeString, "nullkey", "", "", false⟩ : Param),
       (⟨ParamTypeInt, "int", "", "", false⟩ : Param)] =
      .ok [("int", "7"), ("str2", "bar")] := by rfl
  refine ⟨hparse, ?_, ?_⟩
  · have h := sourceJSON_null_and_precedence.1 paramTypeJSONStringers
      (fun _ => .ok [("str2", "bar")]) [("str2", "\"broken\""), ("nullkey", "null"), ("int", "7")]
      [(⟨ParamTypeString, "str2", "", "", false⟩ : Param),
       (⟨ParamTypeString, "nullkey", "", "", false⟩ : Param),
       (⟨ParamTypeInt, "int", "", "", false⟩ : Param)]
      [("str2", "bar")] [("int", "7"), ("str2", "bar")] "nullkey" rfl hparse (by decide) (by decide)
    exact h.trans rfl
  · exact sourceJSON_null_and_precedence.2 paramTypeJSONStringers
      (fun _ => .ok [("str2", "bar")]) [("str2", "\"broken\""), ("nullkey", "null"), ("int", "7")]
      [(⟨ParamTypeString, "str2", "", "", false⟩ : Param),
       (⟨ParamTypeString, "nullkey", "", "", false⟩ : Param),
       (⟨ParamTypeInt, "int", "", "", false⟩ : Param)]
      [("str2", "bar")] [("int", "7"), ("str2", "bar")] "str2" "bar" rfl hparse (by decide) rfl

/-- C9: the shipped Sources leave the caller's declared-params slice
unchanged.  The env and JSON sources never write to the slice
(conjuncts 3 and 4); parseCLI's scanning loop never writes to it either,
so every call that returns a result map — and even one that exits
printing version text — leaves it unchanged (conjuncts 1 and 2); only
the help path, which never returns because the process exits after
printing, sorts the slice via cliHelpStr. -/
theorem sources_preserve_params :
    (∀ (args : List String) (pp : List Param) (m : GoMap),
      (parseCLI args pp).1 = .found m → (parseCLI args pp).2 = pp)
    ∧ (∀ (args : List String) (pp : List Param),
        (parseCLI args pp).1 = .version → (parseCLI args pp).2 = pp)
    ∧ (∀ (ee : List String) (pp : List Param), (parseEnvCall ee pp).2 = pp)
    ∧ (∀ (st : String → Option (String → Except String String))
        (inner : List Param → Except String GoMap) (doc : Option GoMap) (pp : List Param),
        (sourceJSON_ParseCall st inner doc pp).2 = pp) := by
  refine ⟨?_, ?_, fun ee pp => rfl, fun st inner doc pp => rfl⟩
  · intro args pp m
    unfold parseCLI
    dsimp only []
    generalize parseCLIAux (pp.foldl (fun mm p => gInsert mm ("--" ++ p.Name) p) []) args [] = r
    cases r <;> simp
  · intro args pp
    unfold parseCLI
    dsimp only []
    generalize parseCLIAux (pp.foldl (fun mm p => gInsert mm ("--" ++ p.Name) p) []) args [] = r
    cases r <;> simp

theorem sources_preserve_params_witness :
    (parseCLI [] [(⟨ParamTypeBool, "flag1", "", "", false⟩ : Param)]).2 =
      [(⟨ParamTypeBool, "flag1", "", "", false⟩ : Param)] ∧
    (parseEnvCall ["FLAG1=true"] [(⟨ParamTypeBool, "flag1", "", "", false⟩ : Param)]).2 =
      [(⟨ParamTypeBool, "flag1", "", "", false⟩ : Param)] ∧
    (sourceJSON_ParseCall paramTypeJSONStringers (fun _ => .ok []) none
        [(⟨ParamTypeBool, "flag1", "", "", false⟩ : Param)]).2 =
      [(⟨ParamTypeBool, "flag1", "", "", false⟩ : Param)] := by
  refine ⟨?_, ?_, ?_⟩
  · refine sources_preserve_params.1 [] [(⟨ParamTypeBool, "flag1", "", "", false⟩ : Param)] [] ?_
    unfold parseCLI
    dsimp only []
    rw [parseCLIAux_nil]
  · exact sources_preserve_params.2.2.1 ["FLAG1=true"] [(⟨ParamTypeBool, "flag1", "", "", false⟩ : Param)]
  · exact sources_preserve_params.2.2.2 paramTypeJSONStringers (fun _ => .ok []) none
      [(⟨ParamTypeBool, "flag1", "", "", false⟩ : Param)]
